import Mathlib

/-!
Verification development for the hclSchemaGen schema builder.

The definitions below are a shallow embedding of the core of
`src/app/components/SchemaTable.tsx`: the row data model, the store
operations (`handleAddRow`, `handleRemoveRow`, `updateRow`, the primary-key
selection), the validator (`isValidFieldName`, `isValid`) and the HCL
serializer (`generateHCL`).  JavaScript strings are modelled as Lean
`String`s; `String.prototype.trim`, `toLowerCase` and
`replace(/\s+/g, plain underscore)` are embedded as executable functions on
the character lists.  The React component state is an explicit record, and
each event handler is a state transformer.
-/

namespace HclSchemaGen

/-- One editable column definition (`SchemaRow` in the source). -/
structure SchemaRow where
  id : String
  name : String
  type : String
  isNullable : Bool
  isUnique : Bool
  defaultValue : String
deriving DecidableEq

/-- Embedding of JavaScript `String.prototype.trim`: drop whitespace from
both ends of the string. -/
def jsTrim (s : String) : String :=
  String.mk (((s.data.dropWhile Char.isWhitespace).reverse.dropWhile Char.isWhitespace).reverse)

/-- Embedding of JavaScript `String.prototype.toLowerCase` on the ASCII
strings the component manipulates. -/
def jsToLower (s : String) : String :=
  String.mk (s.data.map Char.toLower)

/-- State machine implementing the regex replacement `replace(/\s+/g, c)`
with an underscore: the flag records whether we are inside a whitespace run
whose underscore has already been emitted. -/
def collapseAux : Bool → List Char → List Char
  | _, [] => []
  | inRun, c :: cs =>
    if c.isWhitespace then
      if inRun then collapseAux true cs else '_' :: collapseAux true cs
    else c :: collapseAux false cs

/-- The table identifier the serializer emits:
`modelName.trim().toLowerCase().replace(/\s+/g, underscore)`
(SchemaTable.tsx line 495). -/
def tableIdent (m : String) : String :=
  String.mk (collapseAux false (jsToLower (jsTrim m)).data)

/-- Character-list matcher for the regex `^[a-zA-Z][a-zA-Z0-9_]*$`. -/
def validNameChars : List Char → Bool
  | [] => false
  | c :: cs => c.isAlpha && cs.all (fun x => x.isAlphanum || x == '_')

/-- Field-name validator, embedding the regex test
`/^[a-zA-Z][a-zA-Z0-9_]*$/.test(name)` (SchemaTable.tsx line 277). -/
def isValidFieldName (name : String) : Bool :=
  validNameChars name.data

/-- The snapshot the validator and serializer consume: schema name, model
name, ordered rows, and the primary-key selection. -/
structure TableDefinition where
  schema : String
  modelName : String
  rows : List SchemaRow
  primaryId : Option String
deriving DecidableEq

/-- Whole-form validator (`isValid` in the source, lines 483-490): the
trimmed model name must be non-empty, the row list non-empty, and every row
must have a non-empty trimmed name, a pattern-valid name and a non-empty
type. -/
def isValid (d : TableDefinition) : Bool :=
  if jsTrim d.modelName = "" then false
  else if d.rows.length = 0 then false
  else d.rows.all (fun r => !(jsTrim r.name == "") && isValidFieldName r.name && !(r.type == ""))

/-- JavaScript template interpolation of a boolean. -/
def boolText (b : Bool) : String := if b then "true" else "false"

/-- Left-to-right concatenation of the text a loop body emits for each list
element, mirroring the `forEach` with `+=` in the source. -/
def concatMap (f : α → String) : List α → String
  | [] => ""
  | a :: l => f a ++ concatMap f l

/-- One `column` block of the generated HCL (SchemaTable.tsx lines 496-500). -/
def columnBlock (r : SchemaRow) : String :=
  "    column \"" ++ jsTrim r.name ++ "\" \x7b\n      type = " ++ r.type
    ++ "\n      null = " ++ boolText r.isNullable ++ "\n"
    ++ (if jsTrim r.defaultValue == "" then ""
        else "      default = \"" ++ jsTrim r.defaultValue ++ "\"\n")
    ++ "    \x7d\n"

/-- The `primary_key` section (SchemaTable.tsx lines 501-504): emitted only
when a primary id is selected and resolves to a row. -/
def pkBlock (rows : List SchemaRow) (primaryId : Option String) : String :=
  match primaryId with
  | none => ""
  | some pid =>
    match rows.find? (fun r => r.id == pid) with
    | none => ""
    | some pk => "    primary_key \x7b columns = [column." ++ jsTrim pk.name ++ "] \x7d\n"

/-- One `index` block (SchemaTable.tsx line 506). -/
def indexBlock (tbl : String) (r : SchemaRow) : String :=
  "    index \"idx_" ++ tbl ++ "_" ++ jsTrim r.name ++ "\" \x7b columns = [column."
    ++ jsTrim r.name ++ "] unique = true \x7d\n"

/-- The `index` section (SchemaTable.tsx lines 505-507): one block per row
whose `isUnique` flag is set and whose trimmed name is non-empty, in row
order. -/
def indexBlocks (d : TableDefinition) : String :=
  concatMap (indexBlock (tableIdent d.modelName))
    (d.rows.filter (fun r => r.isUnique && !(jsTrim r.name == "")))

/-- The pure serializer: the HCL text built by `generateHCL`
(SchemaTable.tsx lines 495-508) as a function of the snapshot. -/
def serializeHCL (d : TableDefinition) : String :=
  "schema \"" ++ d.schema ++ "\" \x7b\n  table \"" ++ tableIdent d.modelName ++ "\" \x7b\n"
    ++ concatMap columnBlock d.rows
    ++ pkBlock d.rows d.primaryId
    ++ indexBlocks d
    ++ "  \x7d\n\x7d\n"

/-- The component state: the `useState` cells of `SchemaTable` that the core
reads and writes. -/
structure ComponentState where
  showValidation : Bool
  schema : String
  modelName : String
  rows : List SchemaRow
  primaryId : Option String
  hclOutput : String
deriving DecidableEq

/-- The `TableDefinition` snapshot of a component state. -/
def snapshot (s : ComponentState) : TableDefinition :=
  { schema := s.schema, modelName := s.modelName, rows := s.rows, primaryId := s.primaryId }

/-- The fresh row appended by `handleAddRow` (SchemaTable.tsx line 305):
empty name, type defaulted to the first configured data type, flags false. -/
def freshRow (newId : String) (dataTypes : List String) : SchemaRow :=
  { id := newId, name := "", type := dataTypes.headD "",
    isNullable := false, isUnique := false, defaultValue := "" }

/-- `handleAddRow` (SchemaTable.tsx lines 304-306): append a fresh row. -/
def handleAddRow (newId : String) (dataTypes : List String) (s : ComponentState) : ComponentState :=
  { s with rows := s.rows ++ [freshRow newId dataTypes] }

/-- `handleRemoveRow` (SchemaTable.tsx lines 308-311): filter out the row
with the given id and clear the primary selection when it referenced that
id.  Note: the source has no guard on the remaining row count. -/
def handleRemoveRow (id : String) (s : ComponentState) : ComponentState :=
  { s with rows := s.rows.filter (fun r => !(r.id == id)),
           primaryId := if s.primaryId = some id then none else s.primaryId }

/-- A single-field update, as dispatched by the grid cells through
`updateRow(rowId, columnId, value)`. -/
inductive FieldVal where
  | name (v : String)
  | dataType (v : String)
  | isNullable (v : Bool)
  | isUnique (v : Bool)
  | defaultValue (v : String)

/-- Replace one field of a row (the `\x7b ...row, [columnId]: value \x7d`
spread in `updateRow`). -/
def applyField (f : FieldVal) (r : SchemaRow) : SchemaRow :=
  match f with
  | .name v => { r with name := v }
  | .dataType v => { r with type := v }
  | .isNullable v => { r with isNullable := v }
  | .isUnique v => { r with isUnique := v }
  | .defaultValue v => { r with defaultValue := v }

/-- `updateRow` (SchemaTable.tsx lines 313-319): map over the rows,
replacing the field of the row with the matching id. -/
def updateRow (rowId : String) (f : FieldVal) (s : ComponentState) : ComponentState :=
  { s with rows := s.rows.map (fun r => if r.id == rowId then applyField f r else r) }

/-- `setPrimaryId` as exposed through the table meta. -/
def setPrimaryIdOp (pid : Option String) (s : ComponentState) : ComponentState :=
  { s with primaryId := pid }

/-- `setSchema` from the schema dropdown. -/
def setSchemaOp (v : String) (s : ComponentState) : ComponentState :=
  { s with schema := v }

/-- `setModelName` from the model-name input. -/
def setModelNameOp (v : String) (s : ComponentState) : ComponentState :=
  { s with modelName := v }

/-- `generateHCL` (SchemaTable.tsx lines 492-510) as a state transformer:
set `showValidation`, and only when the snapshot is valid store the
serialized text in `hclOutput`. -/
def generateHCL (s : ComponentState) : ComponentState :=
  let s1 : ComponentState := { s with showValidation := true }
  if isValid (snapshot s1) then { s1 with hclOutput := serializeHCL (snapshot s1) } else s1

/-- The initial component state (SchemaTable.tsx lines 294-302): one fresh
row, no primary selection, first configured schema, empty output. -/
def initState (id0 : String) (schemas dataTypes : List String) : ComponentState :=
  { showValidation := false, schema := schemas.headD "", modelName := "",
    rows := [freshRow id0 dataTypes], primaryId := none, hclOutput := "" }

/-- One UI event applied to the component state.  `addRow` carries the
freshness of the id minted by `nanoid()`; `setPrimary` carries the fact that
the radio button dispatching it belongs to a rendered row. -/
inductive Step : ComponentState → ComponentState → Prop where
  | addRow (s : ComponentState) (newId : String) (dataTypes : List String)
      (hfresh : ∀ r ∈ s.rows, r.id ≠ newId) : Step s (handleAddRow newId dataTypes s)
  | removeRow (s : ComponentState) (id : String) : Step s (handleRemoveRow id s)
  | update (s : ComponentState) (rowId : String) (f : FieldVal) : Step s (updateRow rowId f s)
  | setPrimary (s : ComponentState) (pid : String) (hmem : ∃ r ∈ s.rows, r.id = pid) :
      Step s (setPrimaryIdOp (some pid) s)
  | selectSchema (s : ComponentState) (v : String) : Step s (setSchemaOp v s)
  | setModel (s : ComponentState) (v : String) : Step s (setModelNameOp v s)
  | generate (s : ComponentState) : Step s (generateHCL s)

/-- States reachable from the initial state through UI events. -/
def Reachable (id0 : String) (schemas dataTypes : List String) (s : ComponentState) : Prop :=
  Relation.ReflTransGen Step (initState id0 schemas dataTypes) s

/-- Referential consistency of the primary-key selection: when set it names
an existing row. -/
def PkConsistent (s : ComponentState) : Prop :=
  ∀ pid, s.primaryId = some pid → ∃ r ∈ s.rows, r.id = pid

/-- The field-name pattern as the spec words it: the first character is an
ASCII letter and every following character is an ASCII letter, digit or
underscore. -/
def MatchesFieldPattern (name : String) : Prop :=
  ∃ c cs, name.data = c :: cs ∧
    (('a' ≤ c ∧ c ≤ 'z') ∨ ('A' ≤ c ∧ c ≤ 'Z')) ∧
    ∀ x ∈ cs, ('a' ≤ x ∧ x ≤ 'z') ∨ ('A' ≤ x ∧ x ≤ 'Z') ∨ ('0' ≤ x ∧ x ≤ '9') ∨ x = '_'

/-- Whitespace-run collapsing as the amended wording describes it: the
output keeps every non-whitespace character and replaces each maximal
non-empty run of whitespace by a single underscore. -/
inductive CollapseRel : List Char → List Char → Prop where
  | nil : CollapseRel [] []
  | keep (c : Char) (l l' : List Char) (hc : c.isWhitespace = false)
      (h : CollapseRel l l') : CollapseRel (c :: l) (c :: l')
  | run (ws l l' : List Char) (hne : ws ≠ [])
      (hws : ∀ c ∈ ws, c.isWhitespace = true)
      (hmax : ∀ c t, l = c :: t → c.isWhitespace = false)
      (h : CollapseRel l l') : CollapseRel (ws ++ l) ('_' :: l')

/-- A valid definition whose model name carries an upper-case letter. -/
def upperCaseDef : TableDefinition :=
  { schema := "public", modelName := "Users",
    rows := [{ id := "r1", name := "id", type := "uuid",
               isNullable := false, isUnique := false, defaultValue := "" }],
    primaryId := none }

/-- A definition with two unique rows: one well-named, one whose name is a
single space (non-empty but blank after trimming), under a model name
containing an upper-case letter and an interior space. -/
def blankNameDef : TableDefinition :=
  { schema := "public", modelName := "My Model",
    rows := [{ id := "r1", name := "email", type := "text",
               isNullable := false, isUnique := true, defaultValue := "" },
             { id := "r2", name := " ", type := "text",
               isNullable := false, isUnique := true, defaultValue := "" }],
    primaryId := none }

/-- A component state holding exactly one row. -/
def singleRowState : ComponentState :=
  { showValidation := false, schema := "public", modelName := "users",
    rows := [{ id := "r1", name := "id", type := "uuid",
               isNullable := false, isUnique := false, defaultValue := "" }],
    primaryId := none, hclOutput := "" }

/-- A component state with two rows, the first selected as primary key. -/
def twoRowState : ComponentState :=
  { showValidation := false, schema := "public", modelName := "users",
    rows := [{ id := "a", name := "id", type := "uuid",
               isNullable := false, isUnique := false, defaultValue := "" },
             { id := "b", name := "email", type := "text",
               isNullable := false, isUnique := true, defaultValue := "" }],
    primaryId := some "a", hclOutput := "" }

/-- An invalid component state: empty model name, stale output text. -/
def invalidState : ComponentState :=
  { showValidation := false, schema := "public", modelName := "",
    rows := [{ id := "r1", name := "id", type := "uuid",
               isNullable := false, isUnique := false, defaultValue := "" }],
    primaryId := none, hclOutput := "stale" }

theorem char_alpha_iff (c : Char) :
    c.isAlpha = true ↔ (('a' ≤ c ∧ c ≤ 'z') ∨ ('A' ≤ c ∧ c ≤ 'Z')) := by
  simp only [Char.isAlpha, Char.isUpper, Char.isLower, Bool.or_eq_true, Bool.and_eq_true,
    decide_eq_true_eq, Char.le_def]
  tauto

theorem char_word_iff (c : Char) :
    (c.isAlphanum || c == '_') = true ↔
      (('a' ≤ c ∧ c ≤ 'z') ∨ ('A' ≤ c ∧ c ≤ 'Z') ∨ ('0' ≤ c ∧ c ≤ '9') ∨ c = '_') := by
  simp only [Char.isAlphanum, Char.isAlpha, Char.isUpper, Char.isLower, Char.isDigit,
    Bool.or_eq_true, Bool.and_eq_true, decide_eq_true_eq, beq_iff_eq, Char.le_def]
  tauto

theorem ws_not_alpha (c : Char) (h : c.isWhitespace = true) : c.isAlpha = false := by
  simp only [Char.isWhitespace, Bool.or_eq_true, decide_eq_true_eq] at h
  rcases h with ((h | h) | h) | h <;> subst h <;> decide

theorem ws_not_word (c : Char) (h : c.isWhitespace = true) :
    (c.isAlphanum || c == '_') = false := by
  simp only [Char.isWhitespace, Bool.or_eq_true, decide_eq_true_eq] at h
  rcases h with ((h | h) | h) | h <;> subst h <;> decide

theorem dropWhile_eq_self_of_not {α : Type} (p : α → Bool) :
    ∀ l : List α, (∀ c ∈ l, p c = false) → l.dropWhile p = l
  | [], _ => rfl
  | c :: cs, h => by
    have hc : p c = false := h c (List.mem_cons_self c cs)
    simp [List.dropWhile_cons, hc]

theorem jsTrim_eq_self (s : String) (h : ∀ c ∈ s.data, c.isWhitespace = false) :
    jsTrim s = s := by
  unfold jsTrim
  rw [dropWhile_eq_self_of_not _ _ h,
    dropWhile_eq_self_of_not _ _ (fun c hc => h c (List.mem_reverse.mp hc)),
    List.reverse_reverse]

theorem validFieldName_no_ws (n : String) (h : isValidFieldName n = true) :
    ∀ x ∈ n.data, x.isWhitespace = false := by
  intro x hx
  unfold isValidFieldName at h
  rcases hd : n.data with _ | ⟨c, cs⟩
  · rw [hd] at hx
    exact absurd hx (List.not_mem_nil x)
  · rw [hd] at h hx
    rw [validNameChars, Bool.and_eq_true, List.all_eq_true] at h
    rcases List.mem_cons.mp hx with rfl | hx
    · cases hw : x.isWhitespace with
      | false => rfl
      | true =>
        rw [ws_not_alpha x hw] at h
        exact absurd h.1 Bool.false_ne_true
    · cases hw : x.isWhitespace with
      | false => rfl
      | true =>
        have hword := h.2 x hx
        rw [ws_not_word x hw] at hword
        exact absurd hword Bool.false_ne_true

theorem validFieldName_trim (n : String) (h : isValidFieldName n = true) : jsTrim n = n :=
  jsTrim_eq_self n (validFieldName_no_ws n h)

theorem rowCheck_iff (r : SchemaRow) :
    (!(jsTrim r.name == "") && isValidFieldName r.name && !(r.type == "")) = true ↔
      (r.name ≠ "" ∧ isValidFieldName r.name = true ∧ r.type ≠ "") := by
  simp only [Bool.and_eq_true, Bool.not_eq_true', beq_eq_false_iff_ne, ne_eq]
  constructor
  · rintro ⟨⟨htrim, hvalid⟩, htype⟩
    refine ⟨?_, hvalid, htype⟩
    intro he
    rw [he] at htrim
    exact htrim rfl
  · rintro ⟨hname, hvalid, htype⟩
    refine ⟨⟨?_, hvalid⟩, htype⟩
    rw [validFieldName_trim r.name hvalid]
    exact hname

/-- Claim C3: for every non-empty string, `isValidFieldName` returns true
iff the string starts with an ASCII letter followed by letters, digits or
underscores; `user_1` is valid while `1user` and `user name` are not. -/
theorem field_name_validator_matches_pattern :
    (∀ name : String, name ≠ "" →
      (isValidFieldName name = true ↔ MatchesFieldPattern name))
    ∧ isValidFieldName "user_1" = true
    ∧ isValidFieldName "1user" = false
    ∧ isValidFieldName "user name" = false := by
  refine ⟨?_, by decide, by decide, by decide⟩
  intro name _
  unfold isValidFieldName MatchesFieldPattern
  rcases hd : name.data with _ | ⟨c, cs⟩
  · rw [validNameChars]
    constructor
    · intro h
      exact absurd h Bool.false_ne_true
    · rintro ⟨c, cs, hcons, -, -⟩
      exact absurd hcons.symm (List.cons_ne_nil c cs)
  · rw [validNameChars]
    constructor
    · intro h
      rw [Bool.and_eq_true, List.all_eq_true] at h
      exact ⟨c, cs, rfl, (char_alpha_iff c).mp h.1, fun x hx => (char_word_iff x).mp (h.2 x hx)⟩
    · rintro ⟨c', cs', hcons, hc, hcs⟩
      obtain ⟨h1, h2⟩ := List.cons.inj hcons
      subst h1
      subst h2
      rw [Bool.and_eq_true, List.all_eq_true]
      exact ⟨(char_alpha_iff c).mpr hc, fun x hx => (char_word_iff x).mpr (hcs x hx)⟩

/-- Witness for C3 at the concrete name `user_1`. -/
theorem field_name_validator_matches_pattern_witness :
    isValidFieldName "user_1" = true ↔ MatchesFieldPattern "user_1" :=
  field_name_validator_matches_pattern.1 "user_1" (by decide)

/-- Claim C4: on any definition with at least one row (the data-model
invariant), form validity holds iff the trimmed model name is non-empty and
every row has a non-empty pattern-valid name and a non-empty type; the
primary-key selection and the uniqueness flags never affect validity, and an
all-whitespace model name makes the form invalid regardless of the rows. -/
theorem form_validity_characterization :
    ∀ d : TableDefinition, d.rows ≠ [] →
      ((isValid d = true ↔
          (jsTrim d.modelName ≠ "" ∧
            ∀ r ∈ d.rows, r.name ≠ "" ∧ isValidFieldName r.name = true ∧ r.type ≠ ""))
        ∧ (∀ pid, isValid { d with primaryId := pid } = isValid d)
        ∧ (∀ b, isValid { d with rows := d.rows.map (fun r => { r with isUnique := b }) }
            = isValid d)
        ∧ (jsTrim d.modelName = "" → isValid d = false)) := by
  intro d hrows
  refine ⟨?_, fun pid => rfl, ?_, ?_⟩
  · by_cases h1 : jsTrim d.modelName = ""
    · rw [isValid, if_pos h1]
      constructor
      · intro h
        exact absurd h Bool.false_ne_true
      · rintro ⟨hne, -⟩
        exact absurd h1 hne
    · have h2 : ¬ d.rows.length = 0 := by
        simpa [List.length_eq_zero] using hrows
      rw [isValid, if_neg h1, if_neg h2]
      constructor
      · intro h
        rw [List.all_eq_true] at h
        exact ⟨h1, fun r hr => (rowCheck_iff r).mp (h r hr)⟩
      · rintro ⟨-, hall⟩
        rw [List.all_eq_true]
        exact fun r hr => (rowCheck_iff r).mpr (hall r hr)
  · intro b
    simp [isValid, List.all_map, Function.comp_def]
  · intro h1
    rw [isValid, if_pos h1]

/-- Witness for C4 at a concrete one-row definition. -/
theorem form_validity_characterization_witness :
    (isValid upperCaseDef = true ↔
        (jsTrim upperCaseDef.modelName ≠ "" ∧
          ∀ r ∈ upperCaseDef.rows,
            r.name ≠ "" ∧ isValidFieldName r.name = true ∧ r.type ≠ ""))
      ∧ (∀ pid, isValid { upperCaseDef with primaryId := pid } = isValid upperCaseDef)
      ∧ (∀ b, isValid { upperCaseDef with
            rows := upperCaseDef.rows.map (fun r => { r with isUnique := b }) }
          = isValid upperCaseDef)
      ∧ (jsTrim upperCaseDef.modelName = "" → isValid upperCaseDef = false) :=
  form_validity_characterization upperCaseDef (by decide)

theorem generateHCL_eq (s : ComponentState) :
    generateHCL s =
      if isValid (snapshot s) = true then
        { s with showValidation := true, hclOutput := serializeHCL (snapshot s) }
      else { s with showValidation := true } := rfl

/-- Claim C2 (code bug in `handleRemoveRow`): the store has no last-row
guard — removing the only remaining row empties the row list instead of
being a no-op. -/
theorem remove_last_row_not_rejected :
    singleRowState.rows.length = 1
      ∧ (handleRemoveRow "r1" singleRowState).rows = []
      ∧ (handleRemoveRow "r1" singleRowState).rows.length = 0 := by
  refine ⟨rfl, by decide, by decide⟩

/-- Claim C6: the primary-key selection is single-valued: selecting a
second id supersedes the first, re-selecting is idempotent, and the
serializer's primary-key section is either empty or one block listing
exactly one column; that section is spliced once into the output. -/
theorem primary_key_single_select :
    (∀ (s : ComponentState) (id1 id2 : String),
        (setPrimaryIdOp (some id2) (setPrimaryIdOp (some id1) s)).primaryId = some id2)
      ∧ (∀ (s : ComponentState) (pid : Option String),
          setPrimaryIdOp pid (setPrimaryIdOp pid s) = setPrimaryIdOp pid s)
      ∧ (∀ (rows : List SchemaRow) (pid : Option String),
          pkBlock rows pid = ""
            ∨ ∃ nm, pkBlock rows pid
                = "    primary_key \x7b columns = [column." ++ nm ++ "] \x7d\n")
      ∧ (∀ d : TableDefinition,
          serializeHCL d
            = "schema \"" ++ d.schema ++ "\" \x7b\n  table \"" ++ tableIdent d.modelName
                ++ "\" \x7b\n"
              ++ concatMap columnBlock d.rows
              ++ pkBlock d.rows d.primaryId
              ++ indexBlocks d
              ++ "  \x7d\n\x7d\n") := by
  refine ⟨fun s id1 id2 => rfl, fun s pid => rfl, ?_, fun d => rfl⟩
  intro rows pid
  cases pid with
  | none => exact Or.inl rfl
  | some p =>
    rcases h : rows.find? (fun r => r.id == p) with _ | pk
    · exact Or.inl (by rw [pkBlock, h])
    · exact Or.inr ⟨jsTrim pk.name, by rw [pkBlock, h]⟩

/-- Claim C8: the generate action is gated by the validator: on an invalid
definition it leaves the output text unchanged, and on a valid one it
stores exactly the serializer's text. -/
theorem generate_gated_by_validator :
    ∀ s : ComponentState,
      (isValid (snapshot s) = false → (generateHCL s).hclOutput = s.hclOutput)
      ∧ (isValid (snapshot s) = true →
          (generateHCL s).hclOutput = serializeHCL (snapshot s)) := by
  intro s
  constructor
  · intro h
    rw [generateHCL_eq, if_neg (by rw [h]; exact Bool.false_ne_true)]
  · intro h
    rw [generateHCL_eq, if_pos h]

/-- Witness for C8 at a concrete invalid state (empty model name) and a
concrete valid state. -/
theorem generate_gated_by_validator_witness :
    ((isValid (snapshot invalidState) = false →
        (generateHCL invalidState).hclOutput = invalidState.hclOutput)
      ∧ (isValid (snapshot invalidState) = true →
          (generateHCL invalidState).hclOutput = serializeHCL (snapshot invalidState)))
      ∧ isValid (snapshot invalidState) = false :=
  ⟨generate_gated_by_validator invalidState, by decide⟩

/-- Claim C9: serialization is a pure function of the snapshot: two states
with equal snapshots generate byte-identical output text, and running the
generate action twice equals running it once. -/
theorem serializer_deterministic :
    (∀ s1 s2 : ComponentState, snapshot s1 = snapshot s2 →
        isValid (snapshot s1) = true →
        (generateHCL s1).hclOutput = (generateHCL s2).hclOutput)
      ∧ (∀ s : ComponentState, generateHCL (generateHCL s) = generateHCL s) := by
  constructor
  · intro s1 s2 heq hval
    rw [generateHCL_eq, generateHCL_eq, if_pos hval, if_pos (heq ▸ hval), heq]
  · intro s
    by_cases h : isValid (snapshot s) = true
    · have h2 : isValid (snapshot (generateHCL s)) = true := by
        rw [generateHCL_eq, if_pos h]
        exact h
      rw [generateHCL_eq (generateHCL s), if_pos h2, generateHCL_eq s, if_pos h]
      rfl
    · have h2 : ¬ isValid (snapshot (generateHCL s)) = true := by
        rw [generateHCL_eq, if_neg h]
        exact h
      rw [generateHCL_eq (generateHCL s), if_neg h2, generateHCL_eq s, if_neg h]

/-- Witness for C9 at a concrete valid two-row state. -/
theorem serializer_deterministic_witness :
    (generateHCL twoRowState).hclOutput = (generateHCL twoRowState).hclOutput :=
  serializer_deterministic.1 twoRowState twoRowState rfl (by decide)

theorem applyField_id (f : FieldVal) (r : SchemaRow) : (applyField f r).id = r.id := by
  cases f <;> rfl

theorem generateHCL_rows (s : ComponentState) : (generateHCL s).rows = s.rows := by
  rw [generateHCL_eq]
  split <;> rfl

theorem generateHCL_primaryId (s : ComponentState) :
    (generateHCL s).primaryId = s.primaryId := by
  rw [generateHCL_eq]
  split <;> rfl

theorem pk_consistent_step {s t : ComponentState} (hs : PkConsistent s) (hst : Step s t) :
    PkConsistent t := by
  cases hst with
  | addRow newId dataTypes hfresh =>
    intro pid hp
    obtain ⟨r, hr, hid⟩ := hs pid hp
    exact ⟨r, List.mem_append_left _ hr, hid⟩
  | removeRow id =>
    intro pid hp
    have hp' : (if s.primaryId = some id then none else s.primaryId) = some pid := hp
    by_cases hcl : s.primaryId = some id
    · rw [if_pos hcl] at hp'
      exact Option.noConfusion hp'
    · rw [if_neg hcl] at hp'
      obtain ⟨r, hr, hid⟩ := hs pid hp'
      have hne : r.id ≠ id := by
        intro he
        rw [hp', ← hid, he] at hcl
        exact hcl rfl
      refine ⟨r, List.mem_filter.mpr ⟨hr, ?_⟩, hid⟩
      simp [hne]
  | update rowId f =>
    intro pid hp
    obtain ⟨r, hr, hid⟩ := hs pid hp
    refine ⟨if r.id == rowId then applyField f r else r,
      List.mem_map_of_mem (fun x => if x.id == rowId then applyField f x else x) hr, ?_⟩
    split
    · rw [applyField_id]
      exact hid
    · exact hid
  | setPrimary pid' hmem =>
    intro pid hp
    have : some pid' = some pid := hp
    obtain rfl := Option.some.inj this
    exact hmem
  | selectSchema v => exact fun pid hp => hs pid hp
  | setModel v => exact fun pid hp => hs pid hp
  | generate =>
    intro pid hp
    rw [generateHCL_primaryId] at hp
    obtain ⟨r, hr, hid⟩ := hs pid hp
    refine ⟨r, ?_, hid⟩
    rw [generateHCL_rows]
    exact hr

/-- Claim C5: removing the row the primary selection references clears the
selection, and consequently every state reachable through UI events keeps
the invariant that `primaryId` is `none` or the id of an existing row. -/
theorem primary_key_reference_invariant :
    (∀ (s : ComponentState) (pid : String), s.primaryId = some pid →
        (handleRemoveRow pid s).primaryId = none)
      ∧ (∀ (id0 : String) (schemas dataTypes : List String) (s : ComponentState),
          Reachable id0 schemas dataTypes s → PkConsistent s) := by
  constructor
  · intro s pid hp
    show (if s.primaryId = some pid then none else s.primaryId) = none
    rw [if_pos hp]
  · intro id0 schemas dataTypes s h
    induction h with
    | refl =>
      intro pid hp
      exact Option.noConfusion hp
    | tail hab hbc ih => exact pk_consistent_step ih hbc

/-- Witness for C5: removing the selected row of a concrete two-row state
clears the selection. -/
theorem primary_key_reference_invariant_witness :
    (handleRemoveRow "a" twoRowState).primaryId = none :=
  primary_key_reference_invariant.1 twoRowState "a" rfl

/-- Claim C10: with unique ids, removing a present, non-primary row from a
state with more than one row deletes exactly that row, preserving the order
and contents of all other rows and leaving the primary selection, schema
and model name untouched. -/
theorem remove_row_frame :
    ∀ (s : ComponentState) (r : SchemaRow),
      (s.rows.map SchemaRow.id).Nodup → r ∈ s.rows → s.primaryId ≠ some r.id →
      1 < s.rows.length →
      ∃ l1 l2, s.rows = l1 ++ r :: l2
        ∧ (handleRemoveRow r.id s).rows = l1 ++ l2
        ∧ (handleRemoveRow r.id s).primaryId = s.primaryId
        ∧ (handleRemoveRow r.id s).schema = s.schema
        ∧ (handleRemoveRow r.id s).modelName = s.modelName := by
  intro s r hnodup hmem hpk hlen
  obtain ⟨l1, l2, hsplit⟩ := List.append_of_mem hmem
  refine ⟨l1, l2, hsplit, ?_, ?_, rfl, rfl⟩
  · show s.rows.filter (fun x => !(x.id == r.id)) = l1 ++ l2
    rw [hsplit] at hnodup ⊢
    rw [List.map_append, List.map_cons, List.nodup_append] at hnodup
    obtain ⟨-, h2, hdisj⟩ := hnodup
    have hl1 : ∀ x ∈ l1, (!(x.id == r.id)) = true := by
      intro x hx
      have hne : x.id ≠ r.id := by
        intro he
        exact hdisj (List.mem_map_of_mem SchemaRow.id hx) (he ▸ List.mem_cons_self _ _)
      simp [hne]
    have hl2 : ∀ x ∈ l2, (!(x.id == r.id)) = true := by
      intro x hx
      have hrid : r.id ∉ l2.map SchemaRow.id := (List.nodup_cons.mp h2).1
      have hne : x.id ≠ r.id := fun he =>
        hrid (he ▸ List.mem_map_of_mem SchemaRow.id hx)
      simp [hne]
    rw [List.filter_append, List.filter_cons]
    have hr : (!(r.id == r.id)) = false := by simp
    rw [hr, if_neg Bool.false_ne_true,
      List.filter_eq_self.mpr hl1, List.filter_eq_self.mpr hl2]
  · show (if s.primaryId = some r.id then none else s.primaryId) = s.primaryId
    rw [if_neg hpk]

/-- Witness for C10: removing the non-primary second row of a concrete
two-row state. -/
theorem remove_row_frame_witness :
    ∃ l1 l2, twoRowState.rows
        = l1 ++ ({ id := "b", name := "email", type := "text", isNullable := false,
                   isUnique := true, defaultValue := "" } : SchemaRow) :: l2
      ∧ (handleRemoveRow "b" twoRowState).rows = l1 ++ l2
      ∧ (handleRemoveRow "b" twoRowState).primaryId = twoRowState.primaryId
      ∧ (handleRemoveRow "b" twoRowState).schema = twoRowState.schema
      ∧ (handleRemoveRow "b" twoRowState).modelName = twoRowState.modelName :=
  remove_row_frame twoRowState
    { id := "b", name := "email", type := "text", isNullable := false,
      isUnique := true, defaultValue := "" }
    (by decide) (by decide) (by decide) (by decide)

theorem collapseAux_true_eq :
    ∀ cs : List Char, collapseAux true cs = collapseAux false (cs.dropWhile Char.isWhitespace)
  | [] => rfl
  | c :: cs => by
    cases h : c.isWhitespace with
    | true =>
      rw [List.dropWhile_cons, if_pos h]
      simp [collapseAux, h, collapseAux_true_eq cs]
    | false =>
      rw [List.dropWhile_cons, if_neg (by rw [h]; exact Bool.false_ne_true)]
      simp [collapseAux, h]

theorem dropWhile_head_false {α : Type} {p : α → Bool} :
    ∀ {l : List α} {x : α} {t : List α}, l.dropWhile p = x :: t → p x = false
  | [], x, t, h => absurd h (by simp)
  | a :: l, x, t, h => by
    rw [List.dropWhile_cons] at h
    by_cases ha : p a = true
    · rw [if_pos ha] at h
      exact dropWhile_head_false h
    · rw [if_neg ha] at h
      obtain ⟨h1, -⟩ := List.cons.inj h
      cases hpa : p a with
      | false =>
        rw [h1] at hpa
        exact hpa
      | true => exact absurd hpa ha

theorem collapseRel_collapseAux : ∀ l : List Char, CollapseRel l (collapseAux false l)
  | [] => CollapseRel.nil
  | c :: cs => by
    cases h : c.isWhitespace with
    | false =>
      have heq : collapseAux false (c :: cs) = c :: collapseAux false cs := by
        simp [collapseAux, h]
      rw [heq]
      exact CollapseRel.keep c cs (collapseAux false cs) h (collapseRel_collapseAux cs)
    | true =>
      have heq : collapseAux false (c :: cs)
          = '_' :: collapseAux false (cs.dropWhile Char.isWhitespace) := by
        simp [collapseAux, h, collapseAux_true_eq cs]
      rw [heq]
      have hrec := collapseRel_collapseAux (cs.dropWhile Char.isWhitespace)
      have hrun := CollapseRel.run (c :: cs.takeWhile Char.isWhitespace)
        (cs.dropWhile Char.isWhitespace) (collapseAux false (cs.dropWhile Char.isWhitespace))
        (List.cons_ne_nil _ _)
        (by
          intro x hx
          rcases List.mem_cons.mp hx with rfl | hx
          · exact h
          · exact List.mem_takeWhile_imp hx)
        (fun x t hxt => dropWhile_head_false hxt)
        hrec
      rw [List.cons_append, List.takeWhile_append_dropWhile] at hrun
      exact hrun
termination_by l => l.length
decreasing_by
  all_goals
    first
      | (simp_wf
         have := (List.dropWhile_sublist (l := cs) Char.isWhitespace).length_le
         omega)
      | simp_wf

/-- Claim C1 counterexample: on the valid definition with model name
`Users`, the emitted table identifier is `users`, not the trimmed model
name `Users` — the serializer lower-cases, so trim-only with case
preserved is false. -/
theorem table_ident_not_trim_only :
    isValid upperCaseDef = true
      ∧ tableIdent upperCaseDef.modelName ≠ jsTrim upperCaseDef.modelName
      ∧ serializeHCL upperCaseDef
          = "schema \"public\" \x7b\n  table \"users\" \x7b\n    column \"id\" \x7b\n      type = uuid\n      null = false\n    \x7d\n  \x7d\n\x7d\n" :=
  ⟨by decide, by decide, by decide⟩

/-- Claim C1 amended: for every valid definition, the emitted table
identifier is the trimmed model name lower-cased with each maximal
whitespace run replaced by a single underscore. -/
theorem serializer_table_ident_normalized :
    ∀ d : TableDefinition, isValid d = true →
      (∃ rest, serializeHCL d
          = "schema \"" ++ d.schema ++ "\" \x7b\n  table \"" ++ tableIdent d.modelName
              ++ "\" \x7b\n" ++ rest)
        ∧ CollapseRel (jsToLower (jsTrim d.modelName)).data (tableIdent d.modelName).data := by
  intro d hval
  constructor
  · refine ⟨concatMap columnBlock d.rows ++ pkBlock d.rows d.primaryId ++ indexBlocks d
      ++ "  \x7d\n\x7d\n", ?_⟩
    rw [serializeHCL]
    simp [String.append_assoc]
  · exact collapseRel_collapseAux ((jsToLower (jsTrim d.modelName)).data)

/-- Witness for the amended C1 at the concrete definition with model name
`Users`. -/
theorem serializer_table_ident_normalized_witness :
    (∃ rest, serializeHCL upperCaseDef
        = "schema \"" ++ upperCaseDef.schema ++ "\" \x7b\n  table \""
            ++ tableIdent upperCaseDef.modelName ++ "\" \x7b\n" ++ rest)
      ∧ CollapseRel (jsToLower (jsTrim upperCaseDef.modelName)).data
          (tableIdent upperCaseDef.modelName).data :=
  serializer_table_ident_normalized upperCaseDef (by decide)

theorem concatMap_filter (p : SchemaRow → Bool) (f : SchemaRow → String) :
    ∀ l : List SchemaRow,
      concatMap f (l.filter p) = concatMap (fun r => if p r = true then f r else "") l
  | [] => rfl
  | a :: l => by
    rw [List.filter_cons]
    cases h : p a with
    | true => simp [h, concatMap, concatMap_filter p f l]
    | false => simp [h, concatMap, concatMap_filter p f l]

/-- Claim C7 counterexample: under the model name `My Model`, both rows are
`isUnique` with non-empty names, yet only one index block is emitted, and
its name uses the lower-cased, underscore-collapsed model name rather than
the raw model name. -/
theorem index_blocks_counterexample :
    ((blankNameDef.rows.filter (fun r => r.isUnique && !(r.name == ""))).length = 2)
      ∧ indexBlocks blankNameDef
          = "    index \"idx_my_model_email\" \x7b columns = [column.email] unique = true \x7d\n"
      ∧ ("idx_my_model_email" : String) ≠ "idx_" ++ blankNameDef.modelName ++ "_" ++ "email" :=
  ⟨by decide, by decide, by decide⟩

/-- Claim C7 amended: the index section is, in row order, one block per row
whose `isUnique` flag is set and whose trimmed name is non-empty, named
`idx_` + transformed model name + `_` + trimmed row name, listing that
single column with `unique = true`; every other row contributes nothing. -/
theorem index_blocks_per_row :
    ∀ d : TableDefinition,
      indexBlocks d = concatMap (fun r =>
        if r.isUnique = true ∧ jsTrim r.name ≠ "" then
          "    index \"idx_" ++ tableIdent d.modelName ++ "_" ++ jsTrim r.name
            ++ "\" \x7b columns = [column." ++ jsTrim r.name ++ "] unique = true \x7d\n"
        else "") d.rows := by
  intro d
  rw [indexBlocks, concatMap_filter]
  congr 1
  funext r
  by_cases h : (r.isUnique && !(jsTrim r.name == "")) = true
  · rw [if_pos h, if_pos]
    · rfl
    · rw [Bool.and_eq_true] at h
      refine ⟨h.1, ?_⟩
      have h2 := h.2
      simp only [Bool.not_eq_true', beq_eq_false_iff_ne, ne_eq] at h2
      exact h2
  · rw [if_neg h, if_neg]
    rintro ⟨h1, h2⟩
    apply h
    rw [Bool.and_eq_true]
    refine ⟨h1, ?_⟩
    simp only [Bool.not_eq_true', beq_eq_false_iff_ne, ne_eq]
    exact h2

end HclSchemaGen
